import Mathlib

/-!
Shallow embedding of the Graph Visualizer core logic:
the input validator (`validateEdgeInput`, `validateGraphInput` from the
utils module), the graph state manager (`parseAndValidateInput`,
`canRunAlgorithm` from the `useGraphState` hook), and the execution
controller (`executeAlgorithm` from the `useAlgorithmExecution` hook),
together with the validation patterns and error-message constants from
the constants module.

Strings are modelled by Lean `String` via their character lists; the
JavaScript regular expressions are modelled by the tokenizations they
are equivalent to on the inputs the code feeds them (established by
inspecting the anchored patterns `EDGE_UNWEIGHTED`, `EDGE_WEIGHTED`
and `NODE_ID`).  JavaScript numbers produced by `parseFloat` on a
`\d+(\.\d+)?` capture are modelled exactly as rationals.
-/

namespace GraphViz

/-- Whitespace class, modelling the characters matched by the `\s` /
trim semantics on the ASCII inputs the application handles. -/
def wsChar (c : Char) : Bool :=
  c = (' ') || c = ('\t') || c = ('\n') || c = ('\r')

/-- Trim of a character list: drop whitespace from both ends
(model of JavaScript `String.prototype.trim`). -/
def trimChars (l : List Char) : List Char :=
  ((l.dropWhile wsChar).reverse.dropWhile wsChar).reverse

/-- Trim of a string. -/
def trimStr (s : String) : String :=
  String.mk (trimChars s.data)

/-- Split a character list at every occurrence of a separator
character (model of JavaScript `split`; like it, always returns at
least one group and keeps empty groups). -/
def splitOnChar (sep : Char) : List Char → List (List Char)
  | [] => [[]]
  | c :: rest =>
    if c = sep then [] :: splitOnChar sep rest
    else
      match splitOnChar sep rest with
      | [] => [[c]]
      | g :: gs => (c :: g) :: gs

/-- Maximal runs of non-whitespace characters, in order: the tokens a
`(\S+)` capture group series extracts. -/
def tokensOf : List Char → List (List Char)
  | [] => []
  | c :: rest =>
    if wsChar c then tokensOf rest
    else
      match rest with
      | [] => [[c]]
      | d :: _ =>
        if wsChar d then [c] :: tokensOf rest
        else
          match tokensOf rest with
          | [] => [[c]]
          | t :: ts => (c :: t) :: ts

/-- Whitespace-separated tokens of a string. -/
def wsTokens (s : String) : List String :=
  (tokensOf s.data).map String.mk

/-- `VALIDATION_PATTERNS.NODE_ID = /^[a-zA-Z0-9_-]+$/`: nonempty and
every character alphanumeric, underscore or hyphen. -/
def isValidNodeId (s : String) : Bool :=
  !s.data.isEmpty && s.data.all (fun c => c.isAlpha || c.isDigit || c = ('_') || c = ('-'))

/-- A token matching the weight capture `(\d+(?:\.\d+)?)` of
`VALIDATION_PATTERNS.EDGE_WEIGHTED`: digits with an optional single
decimal part. -/
def isWeightToken (w : String) : Bool :=
  match splitOnChar ('.') w.data with
  | [a] => !a.isEmpty && a.all Char.isDigit
  | [a, b] => (!a.isEmpty && a.all Char.isDigit) && (!b.isEmpty && b.all Char.isDigit)
  | _ => false

/-- Numeric value of a digit run (base 10). -/
def digitsVal (l : List Char) : Nat :=
  l.foldl (fun acc c => acc * 10 + (c.toNat - 48)) 0

/-- Model of JavaScript `parseFloat` on strings of the form
`\d+(\.\d+)?` (the only strings the code applies it to): the exact
rational value; `none` models `NaN` for strings outside that form. -/
def weightNum (w : String) : Option ℚ :=
  match splitOnChar ('.') w.data with
  | [a] =>
    if !a.isEmpty && a.all Char.isDigit then some ((digitsVal a : ℚ)) else none
  | [a, b] =>
    if (!a.isEmpty && a.all Char.isDigit) && (!b.isEmpty && b.all Char.isDigit) then
      some ((digitsVal a : ℚ) + (digitsVal b : ℚ) / ((10 : ℚ) ^ b.length))
    else none
  | _ => none

/-- Matching of a trimmed line against `EDGE_UNWEIGHTED` /
`EDGE_WEIGHTED`: the anchored regexes match exactly when the line has
exactly two (resp. three) whitespace-separated tokens, the third
being a `\d+(\.\d+)?` weight; the captures are those tokens. -/
def matchEdgePattern (trimmed : String) (isWeighted : Bool) : Option (String × String × Option String) :=
  match isWeighted, wsTokens trimmed with
  | true, [s, t, w] => if isWeightToken w then some (s, t, some w) else none
  | true, _ => none
  | false, [s, t] => some (s, t, none)
  | false, _ => none

/-- The guard `isNaN(weight) || parseFloat(weight) < 0` of
`validateEdgeInput` (evaluated only in weighted mode). -/
def jsWeightGuard (wt : Option String) : Bool :=
  match wt with
  | none => true
  | some w =>
    match weightNum w with
    | none => true
    | some q => decide (q < 0)

/-- Result of `validateEdgeInput`: either `{isValid:false, error}` or
`{isValid:true, source, target, weight}`. -/
inductive EdgeResult where
  | invalid (error : String)
  | valid (source target : String) (weight : Option ℚ)
deriving DecidableEq

/-- Whether an `EdgeResult` is the rejection carrying a given error
message. -/
def EdgeResult.isErrorMsg : EdgeResult → String → Bool
  | .invalid e, msg => e = msg
  | _, _ => false

/-- `validateEdgeInput(edgeString, isWeighted)` from the utils module:
trim, empty check, pattern match, node-id check, self-loop check,
weight check, in that order. -/
def validateEdgeInput (edgeString : String) (isWeighted : Bool) : EdgeResult :=
  if trimStr edgeString = ("") then .invalid ("Edge cannot be empty")
  else
    match matchEdgePattern (trimStr edgeString) isWeighted with
    | none =>
      .invalid (if isWeighted then ("Invalid weighted edge format. Expected: \"node1 node2 weight\"")
                else ("Invalid edge format. Expected: \"node1 node2\""))
    | some (source, target, wt) =>
      if (isValidNodeId source && isValidNodeId target) = false then
        .invalid ("Invalid node ID format")
      else if source = target then
        .invalid ("Self-loops are not supported")
      else if isWeighted && jsWeightGuard wt then
        .invalid ("Weight must be a non-negative number")
      else
        .valid source target (if isWeighted then wt.bind weightNum else none)

/-- `ERROR_MESSAGES.EMPTY_GRAPH` from the constants module. -/
def EMPTY_GRAPH : String := "Please add some edges to create a graph."

/-- `ERROR_MESSAGES.MISSING_SOURCE` from the constants module. -/
def MISSING_SOURCE : String := "Please specify a start node for this algorithm."

/-- `ERROR_MESSAGES.INVALID_INPUT` from the constants module. -/
def INVALID_INPUT : String := "Invalid input format. Please check your edge definitions."

/-- `ERROR_MESSAGES.ALGORITHM_ERROR` from the constants module. -/
def ALGORITHM_ERROR : String := "An error occurred while running the algorithm."

/-- An accepted edge record `{source, target, weight}`. -/
structure Edge where
  source : String
  target : String
  weight : Option ℚ
deriving DecidableEq

/-- The template key `` `${source}-${target}` `` used by the
duplicate-edge set. -/
def edgeKey (s t : String) : String :=
  s ++ ("-") ++ t

/-- Accumulator of `validateGraphInput`'s `forEach`: the `errors` and
`edges` arrays and the `edgeSet` of seen keys. -/
structure VState where
  errors : List String
  edges : List Edge
  edgeSet : List String
deriving DecidableEq

/-- Initial accumulator: empty errors, edges, edge set. -/
def initV : VState := ⟨[], [], []⟩

/-- Body of `validateGraphInput`'s `forEach` for the line at 0-based
position `idx` among the non-blank lines: an invalid line appends one
labeled error; a valid line whose key (in either orientation) was
already seen appends one labeled duplicate error; otherwise the edge
and its key are appended. -/
def processLine (st : VState) (idx : Nat) (line : String) (isWeighted : Bool) : VState :=
  match validateEdgeInput line isWeighted with
  | .invalid err =>
    { st with errors := st.errors ++ [("Line ") ++ toString (idx + 1) ++ (": ") ++ err] }
  | .valid s t w =>
    if edgeKey s t ∈ st.edgeSet ∨ edgeKey t s ∈ st.edgeSet then
      { st with errors := st.errors ++ [("Line ") ++ toString (idx + 1) ++ (": Duplicate edge detected")] }
    else
      { st with edges := st.edges ++ [⟨s, t, w⟩], edgeSet := st.edgeSet ++ [edgeKey s t] }

/-- Left-to-right run of `processLine` over a list of lines, starting
at position `idx`. -/
def processLines (lines : List String) (isWeighted : Bool) (idx : Nat) (st : VState) : VState :=
  match lines with
  | [] => st
  | l :: rest => processLines rest isWeighted (idx + 1) (processLine st idx l isWeighted)

/-- `input.trim().split('\n').map(trim).filter(Boolean)`: the trimmed
non-blank lines of the input, in order. -/
def nonBlankLines (input : String) : List String :=
  (((splitOnChar ('\n') (trimStr input).data).map (fun l => String.mk (trimChars l))).filter
    (fun l => !l.data.isEmpty))

/-- Result of `validateGraphInput`: `{isValid, errors, edges}`. -/
structure GraphValidation where
  isValid : Bool
  errors : List String
  edges : List Edge
deriving DecidableEq

/-- `validateGraphInput(input, isWeighted)` from the utils module:
blank input fails with `EMPTY_GRAPH`; otherwise each non-blank line
is validated in order with duplicate detection, and the input is
valid exactly when the error array stayed empty. -/
def validateGraphInput (input : String) (isWeighted : Bool) : GraphValidation :=
  if trimStr input = ("") then ⟨false, [EMPTY_GRAPH], []⟩
  else
    ⟨(processLines (nonBlankLines input) isWeighted 0 initV).errors.isEmpty,
     (processLines (nonBlankLines input) isWeighted 0 initV).errors,
     (processLines (nonBlankLines input) isWeighted 0 initV).edges⟩

/-- A node of the parsed model (identifier only; display attributes
are a rendering concern). -/
structure Node where
  id : String
deriving DecidableEq

/-- The parsed model produced by the graph parser (`parseGraphInput`):
nodes, links and adjacency list. -/
structure GraphModel where
  nodes : List Node
  links : List Edge
  adjList : List (String × List (String × Option ℚ))

/-- The state owned by the `useGraphState` hook: parsed model,
configuration flags, and validation state. -/
structure GraphState where
  nodes : List Node
  links : List Edge
  adjList : List (String × List (String × Option ℚ))
  isDirected : Bool
  isWeighted : Bool
  inputErrors : List String
  isValidGraph : Bool

/-- `parseAndValidateInput(input, directed, weighted)` from the
`useGraphState` hook, with the graph parser (which lives in a module
outside the validated sources) abstracted as an argument that may
succeed with a model or throw.  The returned boolean records whether
the parser was invoked.  On failed validation the hook stores the
errors, marks the graph invalid and clears nodes, links and adjacency
without calling the parser; on a parser throw the catch block stores
`INVALID_INPUT` and clears the model. -/
def parseAndValidateInput (parser : String → Bool → Bool → Except String GraphModel)
    (st : GraphState) (input : String) (directed weighted : Bool) : GraphState × Bool :=
  if (validateGraphInput input weighted).isValid = false then
    ({ st with inputErrors := (validateGraphInput input weighted).errors, isValidGraph := false,
               nodes := [], links := [], adjList := [] }, false)
  else
    match parser input directed weighted with
    | .ok m =>
      ({ st with inputErrors := [], isValidGraph := true,
                 nodes := m.nodes, links := m.links, adjList := m.adjList }, true)
    | .error _ =>
      ({ st with inputErrors := [INVALID_INPUT], isValidGraph := false,
                 nodes := [], links := [], adjList := [] }, true)

/-- Result of the eligibility check: `{canRun, reason?}`. -/
structure RunCheck where
  canRun : Bool
  reason : Option String
deriving DecidableEq

/-- `canRunAlgorithm(algorithmType, sourceNode)` from the
`useGraphState` hook: empty-graph guard, then the switch over the
algorithm kind.  A `none` or empty-string source models the falsy
`!sourceNode` check. -/
def canRunAlgorithm (st : GraphState) (algorithmType : String) (sourceNode : Option String) : RunCheck :=
  if st.isValidGraph = false ∨ st.nodes.length = 0 then ⟨false, some EMPTY_GRAPH⟩
  else if algorithmType = ("dfs") ∨ algorithmType = ("bfs") ∨ algorithmType = ("dijkstra") then
    match sourceNode with
    | none => ⟨false, some MISSING_SOURCE⟩
    | some s =>
      if s = ("") then ⟨false, some MISSING_SOURCE⟩
      else if ¬ ∃ n ∈ st.nodes, n.id = s then
        ⟨false, some ("Source node does not exist in the graph")⟩
      else ⟨true, none⟩
  else if algorithmType = ("scc") then
    if st.isDirected = false then
      ⟨false, some ("Strongly Connected Components requires a directed graph")⟩
    else ⟨true, none⟩
  else if algorithmType = ("prims") ∨ algorithmType = ("kruskals") then
    if st.isDirected = true then
      ⟨false, some ("MST algorithms require an undirected graph")⟩
    else if st.isWeighted = false then
      ⟨false, some ("MST algorithms require a weighted graph")⟩
    else ⟨true, none⟩
  else ⟨true, none⟩

/-- The state owned by the `useAlgorithmExecution` hook. -/
structure ExecState where
  isRunning : Bool
  error : String
  result : String
  resultReady : Bool
  speedrun : String
deriving DecidableEq

/-- JavaScript `a || b` on an optional string and a fallback:
`undefined` and the empty string are falsy. -/
def jsOrStr (a : Option String) (b : String) : String :=
  match a with
  | none => b
  | some s => if s = ("") then b else s

/-- `executeAlgorithm(algorithmFn, options)` from the
`useAlgorithmExecution` hook, as the net state transition of one
invocation.  The algorithm outcome is `Except.error e` for a throw and
`Except.ok res` for a normal return, `res = none` modelling a falsy
(`undefined`/empty) return value.  A running state is returned
untouched; otherwise error/result/resultReady are reset, the outcome
is folded in (`if (algorithmResult)` stores the result only when
truthy; a throw stores `options.errorMessage || ALGORITHM_ERROR`), and
the `finally` block clears `isRunning` and the speed signal.  The
function is total: a throw never escapes to the caller. -/
def executeAlgorithm (st : ExecState) (algorithmFn : Except String (Option String))
    (errorMessage : Option String) : ExecState :=
  if st.isRunning then st
  else
    match algorithmFn with
    | .ok res =>
      match res with
      | some r =>
        if r = ("") then
          { st with error := (""), result := (""), resultReady := false,
                    isRunning := false, speedrun := ("") }
        else
          { st with error := (""), result := r, resultReady := true,
                    isRunning := false, speedrun := ("") }
      | none =>
        { st with error := (""), result := (""), resultReady := false,
                  isRunning := false, speedrun := ("") }
    | .error _ =>
      { st with error := jsOrStr errorMessage ALGORITHM_ERROR, result := (""),
                resultReady := false, isRunning := false, speedrun := ("") }

/-- Spec-side predicate: processing the non-blank line `l`, arriving
after the prefix `pre` of non-blank lines, appends no error. -/
def lineAddsNoError (w : Bool) (pre : List String) (l : String) : Prop :=
  (processLine (processLines pre w 0 initV) pre.length l w).errors
    = (processLines pre w 0 initV).errors

/-- Spec-side predicate: no non-blank line of the given line list
produces an error during the run of `validateGraphInput`. -/
def noLineError (w : Bool) (lines : List String) : Prop :=
  ∀ pre l rest, lines = pre ++ l :: rest → lineAddsNoError w pre l

/-- Invariant of the duplicate-detection accumulator: every accepted
edge has its key in the seen set. -/
def keysInv (st : VState) : Prop :=
  ∀ e ∈ st.edges, edgeKey e.source e.target ∈ st.edgeSet

theorem isEmpty_true_iff {α : Type} (l : List α) : l.isEmpty = true ↔ l = [] := by
  cases l <;> simp

theorem nonBlankLines_of_trim_empty (input : String) (h : trimStr input = ("")) :
    nonBlankLines input = [] := by
  unfold nonBlankLines
  rw [h]
  rfl

theorem matchEdgePattern_blank (w : Bool) : matchEdgePattern ("") w = none := by
  cases w <;> rfl

theorem processLines_append (xs ys : List String) (w : Bool) (i : Nat) (st : VState) :
    processLines (xs ++ ys) w i st
      = processLines ys w (i + xs.length) (processLines xs w i st) := by
  induction xs generalizing i st with
  | nil => simp [processLines]
  | cons x xs ih =>
    show processLines (xs ++ ys) w (i + 1) (processLine st i x w)
      = processLines ys w (i + (xs.length + 1))
          (processLines xs w (i + 1) (processLine st i x w))
    rw [ih]
    have hix : i + 1 + xs.length = i + (xs.length + 1) := by omega
    rw [hix]

theorem processLine_errors (st : VState) (i : Nat) (l : String) (w : Bool) :
    ∃ t, (processLine st i l w).errors = st.errors ++ t := by
  rcases hv : validateEdgeInput l w with err | ⟨s, tg, wt⟩ <;>
    simp only [processLine, hv]
  · exact ⟨_, rfl⟩
  · by_cases hd : edgeKey s tg ∈ st.edgeSet ∨ edgeKey tg s ∈ st.edgeSet
    · rw [if_pos hd]; exact ⟨_, rfl⟩
    · rw [if_neg hd]; exact ⟨[], by simp⟩

theorem processLines_errors_mono (ls : List String) (w : Bool) (i : Nat) (st : VState) :
    ∃ t, (processLines ls w i st).errors = st.errors ++ t := by
  induction ls generalizing i st with
  | nil => exact ⟨[], by simp [processLines]⟩
  | cons l ls ih =>
    obtain ⟨t₀, h₀⟩ := processLine_errors st i l w
    obtain ⟨t₁, h₁⟩ := ih (i + 1) (processLine st i l w)
    exact ⟨t₀ ++ t₁, by simp [processLines, h₁, h₀]⟩

theorem processLines_noerr_of_steps (ls : List String) (w : Bool) : ∀ (i : Nat) (st : VState),
    (∀ pre l rest, ls = pre ++ l :: rest →
      (processLine (processLines pre w i st) (i + pre.length) l w).errors
        = (processLines pre w i st).errors) →
    (processLines ls w i st).errors = st.errors := by
  induction ls with
  | nil => intro i st _; rfl
  | cons l ls ih =>
    intro i st h
    have h0 : (processLine st i l w).errors = st.errors := by
      have h' := h [] l ls rfl
      simpa [processLines] using h'
    have hrest : (processLines ls w (i + 1) (processLine st i l w)).errors
        = (processLine st i l w).errors := by
      apply ih
      intro pre l' rest hls
      have h' := h (l :: pre) l' rest (by rw [hls, List.cons_append])
      have hidx : i + (l :: pre).length = i + 1 + pre.length := by
        simp [List.length_cons]; omega
      rw [hidx] at h'
      exact h'
    show (processLines ls w (i + 1) (processLine st i l w)).errors = st.errors
    rw [hrest, h0]

theorem processLines_noerr_iff (ls : List String) (w : Bool) (i : Nat) (st : VState) :
    (processLines ls w i st).errors = st.errors ↔
      ∀ pre l rest, ls = pre ++ l :: rest →
        (processLine (processLines pre w i st) (i + pre.length) l w).errors
          = (processLines pre w i st).errors := by
  constructor
  · intro h pre l rest hls
    subst hls
    obtain ⟨t₀, h₀⟩ := processLines_errors_mono pre w i st
    obtain ⟨t₁, h₁⟩ :=
      processLine_errors (processLines pre w i st) (i + pre.length) l w
    obtain ⟨t₂, h₂⟩ := processLines_errors_mono rest w (i + pre.length + 1)
      (processLine (processLines pre w i st) (i + pre.length) l w)
    rw [processLines_append] at h
    have h' : (processLines rest w (i + pre.length + 1)
        (processLine (processLines pre w i st) (i + pre.length) l w)).errors
        = st.errors := h
    rw [h₂, h₁, h₀] at h'
    have hlen := congrArg List.length h'
    simp only [List.length_append] at hlen
    have ht₁ : t₁ = [] := List.length_eq_zero.mp (by omega)
    rw [h₁, ht₁, List.append_nil]
  · intro h
    exact processLines_noerr_of_steps ls w i st h

theorem keysInv_initV : keysInv initV := by
  intro e he
  simp [initV] at he

theorem keysInv_processLine (st : VState) (i : Nat) (l : String) (w : Bool)
    (h : keysInv st) : keysInv (processLine st i l w) := by
  rcases hv : validateEdgeInput l w with err | ⟨s, t, wt⟩ <;>
    unfold keysInv <;> simp only [processLine, hv]
  · exact fun e he => h e he
  · by_cases hd : edgeKey s t ∈ st.edgeSet ∨ edgeKey t s ∈ st.edgeSet
    · rw [if_pos hd]; exact fun e he => h e he
    · rw [if_neg hd]
      intro e he
      rcases List.mem_append.mp he with h1 | h2
      · exact List.mem_append_left _ (h e h1)
      · have he2 : e = ⟨s, t, wt⟩ := by simpa using h2
        subst he2
        exact List.mem_append_right _ (by simp)

theorem keysInv_processLines (ls : List String) (w : Bool) :
    ∀ i st, keysInv st → keysInv (processLines ls w i st) := by
  induction ls with
  | nil => intro i st h; exact h
  | cons l ls ih =>
    intro i st h
    exact ih (i + 1) _ (keysInv_processLine st i l w h)

theorem processLine_dup (st : VState) (i : Nat) (l : String) (w : Bool)
    (hinv : keysInv st) (e : Edge) (he : e ∈ st.edges)
    (s t : String) (wt : Option ℚ)
    (hv : validateEdgeInput l w = .valid s t wt)
    (hpair : (s = e.source ∧ t = e.target) ∨ (s = e.target ∧ t = e.source)) :
    processLine st i l w
      = { st with errors :=
            st.errors ++ [("Line ") ++ toString (i + 1) ++ (": Duplicate edge detected")] } := by
  have hkey : edgeKey e.source e.target ∈ st.edgeSet := hinv e he
  have hd : edgeKey s t ∈ st.edgeSet ∨ edgeKey t s ∈ st.edgeSet := by
    rcases hpair with ⟨hs, ht⟩ | ⟨hs, ht⟩
    · left; rw [hs, ht]; exact hkey
    · right; rw [ht, hs]; exact hkey
  simp only [processLine, hv]
  rw [if_pos hd]

theorem matchEdgePattern_weighted_token (tr s t : String) (wt : Option String)
    (h : matchEdgePattern tr true = some (s, t, wt)) :
    ∃ w, wt = some w ∧ isWeightToken w = true := by
  rcases hts : wsTokens tr with _ | ⟨a, _ | ⟨b, _ | ⟨c, _ | rest⟩⟩⟩ <;>
    simp only [matchEdgePattern, hts] at h
  · exact absurd h (by simp)
  · exact absurd h (by simp)
  · exact absurd h (by simp)
  · by_cases hw : isWeightToken c = true
    · rw [if_pos hw] at h
      simp only [Option.some.injEq, Prod.mk.injEq] at h
      exact ⟨c, h.2.2.symm, hw⟩
    · rw [if_neg hw] at h
      exact absurd h (by simp)
  · exact absurd h (by simp)

theorem isWeightToken_nonneg (w : String) (h : isWeightToken w = true) :
    ∃ q, weightNum w = some q ∧ 0 ≤ q := by
  rcases hs : splitOnChar ('.') w.data with _ | ⟨a, _ | ⟨b, _ | ⟨c, rest⟩⟩⟩ <;>
    simp only [isWeightToken, hs] at h <;> simp only [weightNum, hs]
  · exact absurd h (by simp)
  · rw [if_pos h]
    exact ⟨_, rfl, by positivity⟩
  · rw [if_pos h]
    refine ⟨_, rfl, ?_⟩
    have h1 : (0 : ℚ) ≤ (digitsVal a : ℚ) := by positivity
    have h2 : (0 : ℚ) ≤ (digitsVal b : ℚ) / ((10 : ℚ) ^ b.length) := by positivity
    linarith
  · exact absurd h (by simp)

/-- Claim C4: a line whose two endpoint tokens (per the mode's edge
grammar) are identical — such as `a a` unweighted or `a a 5` weighted —
is rejected by `validateEdgeInput` as a self-loop, in both weighted
and unweighted mode. -/
theorem self_loop_rejected (line : String) (w : Bool) (s t : String) (wt : Option String)
    (hm : matchEdgePattern (trimStr line) w = some (s, t, wt))
    (hid : isValidNodeId s = true) (hst : s = t) :
    validateEdgeInput line w = .invalid ("Self-loops are not supported") := by
  have hz : ¬ trimStr line = ("") := by
    intro hzz
    rw [hzz, matchEdgePattern_blank] at hm
    exact absurd hm (by simp)
  unfold validateEdgeInput
  rw [if_neg hz, hm]
  subst hst
  simp [hid]

/-- Witness for C4: the concrete self-loop lines `a a` (unweighted)
and `a a 5` (weighted). -/
theorem self_loop_rejected_witness :
    validateEdgeInput ("a a") false = .invalid ("Self-loops are not supported")
      ∧ validateEdgeInput ("a a 5") true = .invalid ("Self-loops are not supported") :=
  ⟨self_loop_rejected ("a a") false ("a") ("a") none (by decide) (by decide) rfl,
   self_loop_rejected ("a a 5") true ("a") ("a") (some ("5")) (by decide) (by decide) rfl⟩

theorem validateEdgeInput_of_match (line : String) (w : Bool) (s t : String) (wt : Option String)
    (hz : ¬ trimStr line = ("")) (hm : matchEdgePattern (trimStr line) w = some (s, t, wt)) :
    validateEdgeInput line w =
      (if (isValidNodeId s && isValidNodeId t) = false then
        EdgeResult.invalid ("Invalid node ID format")
       else if s = t then EdgeResult.invalid ("Self-loops are not supported")
       else if w && jsWeightGuard wt then
        EdgeResult.invalid ("Weight must be a non-negative number")
       else EdgeResult.valid s t (if w then wt.bind weightNum else none)) := by
  unfold validateEdgeInput
  rw [if_neg hz, hm]

/-- Claim C10: in weighted mode the branch of `validateEdgeInput`
returning the non-negative-weight error is unreachable: every line
that matches the weighted edge pattern captures a weight of the form
digits with an optional decimal part, which always parses to a
non-negative number, so no input line can produce that error. -/
theorem weight_error_unreachable (line : String) :
    (validateEdgeInput line true).isErrorMsg ("Weight must be a non-negative number") = false := by
  by_cases hz : trimStr line = ("")
  · unfold validateEdgeInput
    rw [if_pos hz]
    decide
  · rcases hm : matchEdgePattern (trimStr line) true with _ | ⟨s, t, wt⟩
    · unfold validateEdgeInput
      rw [if_neg hz, hm]
      decide
    · rw [validateEdgeInput_of_match line true s t wt hz hm]
      obtain ⟨wtok, hwt, hwtok⟩ := matchEdgePattern_weighted_token _ _ _ _ hm
      subst hwt
      obtain ⟨q, hq, hq0⟩ := isWeightToken_nonneg _ hwtok
      have hq0n : ¬ q < 0 := not_lt.mpr hq0
      have hguard : jsWeightGuard (some wtok) = false := by
        simp [jsWeightGuard, hq, hq0n]
      by_cases h1 : (isValidNodeId s && isValidNodeId t) = false
      · rw [if_pos h1]; decide
      · rw [if_neg h1]
        by_cases h2 : s = t
        · rw [if_pos h2]; decide
        · rw [if_neg h2]
          rw [hguard]
          simp [EdgeResult.isErrorMsg]

/-- Claim C3: during `validateGraphInput`'s line scan, a valid line
whose endpoint pair equals a previously accepted edge in either order
is rejected with a duplicate-edge error labeled for that line, and is
not added to the accepted edges list. -/
theorem duplicate_edge_rejected (w : Bool) (pre : List String) (l : String)
    (s t : String) (wt : Option ℚ) (e : Edge)
    (hmem : e ∈ (processLines pre w 0 initV).edges)
    (hval : validateEdgeInput l w = .valid s t wt)
    (hpair : (s = e.source ∧ t = e.target) ∨ (s = e.target ∧ t = e.source)) :
    (processLine (processLines pre w 0 initV) pre.length l w).errors
        = (processLines pre w 0 initV).errors
          ++ [("Line ") ++ toString (pre.length + 1) ++ (": Duplicate edge detected")]
      ∧ (processLine (processLines pre w 0 initV) pre.length l w).edges
        = (processLines pre w 0 initV).edges := by
  have hinv : keysInv (processLines pre w 0 initV) :=
    keysInv_processLines pre w 0 initV keysInv_initV
  rw [processLine_dup _ _ _ _ hinv e hmem s t wt hval hpair]
  exact ⟨rfl, rfl⟩

/-- Witness for C3: input lines `a b` then `b a`, unweighted. -/
theorem duplicate_edge_rejected_witness :
    (processLine (processLines [("a b")] false 0 initV) 1 ("b a") false).errors
        = (processLines [("a b")] false 0 initV).errors ++ [("Line 2: Duplicate edge detected")]
      ∧ (processLine (processLines [("a b")] false 0 initV) 1 ("b a") false).edges
        = (processLines [("a b")] false 0 initV).edges :=
  duplicate_edge_rejected false [("a b")] ("b a") ("b") ("a") none ⟨("a"), ("b"), none⟩
    (by decide) (by decide) (Or.inr ⟨rfl, rfl⟩)

/-- Claim C9: the duplicate detection of `validateGraphInput` is
direction-insensitive unconditionally — the function takes no
directedness parameter at all, so even under a directed
configuration, a valid line whose (source, target) pair is the
reverse of a previously accepted edge is rejected as a duplicate (the
whole accumulator state is unchanged except for the appended error)
rather than accepted as a distinct directed edge. -/
theorem reverse_duplicate_rejected (w : Bool) (pre : List String) (l : String)
    (s t : String) (wt : Option ℚ) (e : Edge)
    (hmem : e ∈ (processLines pre w 0 initV).edges)
    (hval : validateEdgeInput l w = .valid s t wt)
    (hs : s = e.target) (ht : t = e.source) :
    processLine (processLines pre w 0 initV) pre.length l w
      = { processLines pre w 0 initV with
          errors := (processLines pre w 0 initV).errors
            ++ [("Line ") ++ toString (pre.length + 1) ++ (": Duplicate edge detected")] } := by
  have hinv : keysInv (processLines pre w 0 initV) :=
    keysInv_processLines pre w 0 initV keysInv_initV
  exact processLine_dup _ _ _ _ hinv e hmem s t wt hval (Or.inr ⟨hs, ht⟩)

/-- Witness for C9: accepted edge `a b`, later reversed line `b a`. -/
theorem reverse_duplicate_rejected_witness :
    processLine (processLines [("a b")] false 0 initV) 1 ("b a") false
      = { processLines [("a b")] false 0 initV with
          errors := (processLines [("a b")] false 0 initV).errors
            ++ [("Line 2: Duplicate edge detected")] } :=
  reverse_duplicate_rejected false [("a b")] ("b a") ("b") ("a") none ⟨("a"), ("b"), none⟩
    (by decide) (by decide) rfl rfl

/-- Claim C6: invoking `executeAlgorithm` while an algorithm is
already running (`isRunning` true) is a no-op: the state — error,
result, resultReady, isRunning and the speed-control signal — is
returned entirely unchanged, so at most one algorithm runs at a
time. -/
theorem executeAlgorithm_guard (st : ExecState) (fn : Except String (Option String))
    (em : Option String) (h : st.isRunning = true) :
    executeAlgorithm st fn em = st := by
  unfold executeAlgorithm
  rw [if_pos h]

/-- Witness for C6: a concrete running state is untouched. -/
theorem executeAlgorithm_guard_witness :
    executeAlgorithm ⟨true, ("e"), ("r"), true, ("s")⟩ (Except.ok (some ("x"))) none
      = ⟨true, ("e"), ("r"), true, ("s")⟩ :=
  executeAlgorithm_guard ⟨true, ("e"), ("r"), true, ("s")⟩ (Except.ok (some ("x"))) none rfl

/-- Claim C1: for a valid non-empty graph state, `canRunAlgorithm`
implements the eligibility table: traversal / shortest-path kinds
reject a missing (falsy) source with the missing-source reason and an
absent source with the source-does-not-exist reason, and accept
otherwise; `scc` rejects exactly the non-directed configurations;
MST kinds reject directed and (otherwise) unweighted configurations;
every other kind is accepted. -/
theorem canRunAlgorithm_table (st : GraphState)
    (h1 : st.isValidGraph = true) (h2 : st.nodes ≠ []) :
    (∀ k, k = ("dfs") ∨ k = ("bfs") ∨ k = ("dijkstra") →
        canRunAlgorithm st k none = ⟨false, some MISSING_SOURCE⟩
      ∧ canRunAlgorithm st k (some ("")) = ⟨false, some MISSING_SOURCE⟩
      ∧ (∀ s, s ≠ ("") → (¬ ∃ n ∈ st.nodes, n.id = s) →
          canRunAlgorithm st k (some s)
            = ⟨false, some ("Source node does not exist in the graph")⟩)
      ∧ (∀ s, s ≠ ("") → (∃ n ∈ st.nodes, n.id = s) →
          canRunAlgorithm st k (some s) = ⟨true, none⟩))
    ∧ (∀ src, st.isDirected = false →
        canRunAlgorithm st ("scc") src
          = ⟨false, some ("Strongly Connected Components requires a directed graph")⟩)
    ∧ (∀ src, st.isDirected = true → canRunAlgorithm st ("scc") src = ⟨true, none⟩)
    ∧ (∀ k src, k = ("prims") ∨ k = ("kruskals") →
        (st.isDirected = true →
          canRunAlgorithm st k src = ⟨false, some ("MST algorithms require an undirected graph")⟩)
      ∧ (st.isDirected = false → st.isWeighted = false →
          canRunAlgorithm st k src = ⟨false, some ("MST algorithms require a weighted graph")⟩)
      ∧ (st.isDirected = false → st.isWeighted = true →
          canRunAlgorithm st k src = ⟨true, none⟩))
    ∧ (∀ k src,
        ¬ (k = ("dfs") ∨ k = ("bfs") ∨ k = ("dijkstra") ∨ k = ("scc")
            ∨ k = ("prims") ∨ k = ("kruskals")) →
        canRunAlgorithm st k src = ⟨true, none⟩) := by
  have hg : ¬ (st.isValidGraph = false ∨ st.nodes.length = 0) := by
    rintro (hf | hf)
    · rw [h1] at hf; cases hf
    · exact h2 (List.length_eq_zero.mp hf)
  refine ⟨?_, ?_, ?_, ?_, ?_⟩
  · intro k hk
    rcases hk with rfl | rfl | rfl <;>
      exact ⟨by simp [canRunAlgorithm, h1, h2],
             by simp [canRunAlgorithm, h1, h2],
             fun s hs hnx => by simp [canRunAlgorithm, h1, h2, hs, hnx],
             fun s hs hex => by simp [canRunAlgorithm, h1, h2, hs, hex]⟩
  · intro src hdir
    rcases src with _ | s
    · simp [canRunAlgorithm, h1, h2, hdir]
    · simp [canRunAlgorithm, h1, h2, hdir]
  · intro src hdir
    rcases src with _ | s
    · simp [canRunAlgorithm, h1, h2, hdir]
    · simp [canRunAlgorithm, h1, h2, hdir]
  · intro k src hk
    rcases hk with rfl | rfl <;>
      exact ⟨fun hdir => by rcases src with _ | s <;> simp [canRunAlgorithm, h1, h2, hdir],
             fun hdir hw => by rcases src with _ | s <;> simp [canRunAlgorithm, h1, h2, hdir, hw],
             fun hdir hw => by rcases src with _ | s <;> simp [canRunAlgorithm, h1, h2, hdir, hw]⟩
  · intro k src hk
    push_neg at hk
    obtain ⟨n1, n2, n3, n4, n5, n6⟩ := hk
    rcases src with _ | s <;> simp [canRunAlgorithm, h1, h2, n1, n2, n3, n4, n5, n6]

/-- Witness for C1: a valid one-node undirected weighted state
rejects `dfs` without a source. -/
theorem canRunAlgorithm_table_witness :
    canRunAlgorithm ⟨[⟨("A")⟩], [], [], false, true, [], true⟩ ("dfs") none
      = ⟨false, some MISSING_SOURCE⟩ :=
  ((canRunAlgorithm_table ⟨[⟨("A")⟩], [], [], false, true, [], true⟩ rfl (by decide)).1
    ("dfs") (Or.inl rfl)).1

/-- Claim C7: blank (empty or all-whitespace) input makes
`validateGraphInput` fail with exactly the `EMPTY_GRAPH` error and no
edges; the state manager then holds an invalid, empty model, and
`canRunAlgorithm` rejects every algorithm kind and source with the
same `EMPTY_GRAPH` reason. -/
theorem empty_input_rejects_all (input : String) (w : Bool) (h : trimStr input = ("")) :
    validateGraphInput input w = ⟨false, [EMPTY_GRAPH], []⟩
      ∧ ∀ parser st d,
          (parseAndValidateInput parser st input d w).1.isValidGraph = false
          ∧ (parseAndValidateInput parser st input d w).1.nodes = []
          ∧ ∀ kind src,
              canRunAlgorithm (parseAndValidateInput parser st input d w).1 kind src
                = ⟨false, some EMPTY_GRAPH⟩ := by
  have hv : validateGraphInput input w = ⟨false, [EMPTY_GRAPH], []⟩ := by
    unfold validateGraphInput
    rw [if_pos h]
  refine ⟨hv, ?_⟩
  intro parser st d
  have hpv : parseAndValidateInput parser st input d w
      = ({ st with inputErrors := [EMPTY_GRAPH], isValidGraph := false,
                   nodes := [], links := [], adjList := [] }, false) := by
    unfold parseAndValidateInput
    rw [hv]
    rfl
  rw [hpv]
  refine ⟨rfl, rfl, ?_⟩
  intro kind src
  unfold canRunAlgorithm
  rw [if_pos (Or.inl rfl)]

/-- Witness for C7: the all-whitespace input. -/
theorem empty_input_rejects_all_witness :
    validateGraphInput ("  \n ") false = ⟨false, [EMPTY_GRAPH], []⟩
      ∧ ∀ parser st d,
          (parseAndValidateInput parser st ("  \n ") d false).1.isValidGraph = false
          ∧ (parseAndValidateInput parser st ("  \n ") d false).1.nodes = []
          ∧ ∀ kind src,
              canRunAlgorithm (parseAndValidateInput parser st ("  \n ") d false).1 kind src
                = ⟨false, some EMPTY_GRAPH⟩ :=
  empty_input_rejects_all ("  \n ") false (by decide)

/-- Counterexample to C2 as stated: on the empty input there is no
non-blank line at all (so no line produced an error), yet
`validateGraphInput` returns `valid = false` (with the `EMPTY_GRAPH`
error), refuting the claimed equivalence. -/
theorem validateGraphInput_empty_cex :
    nonBlankLines ("") = [] ∧ (validateGraphInput ("") false).isValid = false := by
  exact ⟨by decide, by decide⟩

/-- Claim C2 (amended): for input with at least one non-blank line,
`validateGraphInput` returns `valid = true` iff no non-blank line
produced an error during the scan; and whenever validation fails
(on any input), the graph state manager stores the errors, marks the
graph invalid, clears nodes, links and adjacency, and never invokes
the graph parser — the outcome is independent of the parser and the
invocation flag is false. -/
theorem validateGraphInput_valid_iff (input : String) (w : Bool)
    (h : nonBlankLines input ≠ []) :
    ((validateGraphInput input w).isValid = true ↔ noLineError w (nonBlankLines input))
    ∧ (∀ parser st d, (validateGraphInput input w).isValid = false →
        parseAndValidateInput parser st input d w
          = ({ st with inputErrors := (validateGraphInput input w).errors,
                       isValidGraph := false, nodes := [], links := [], adjList := [] },
             false)) := by
  have htrim : ¬ trimStr input = ("") := fun hh => h (nonBlankLines_of_trim_empty input hh)
  constructor
  · unfold validateGraphInput
    rw [if_neg htrim]
    show (processLines (nonBlankLines input) w 0 initV).errors.isEmpty = true
      ↔ noLineError w (nonBlankLines input)
    rw [isEmpty_true_iff]
    have hbase : (initV).errors = [] := rfl
    constructor
    · intro hv
      intro pre l rest hls
      have hsteps := (processLines_noerr_iff (nonBlankLines input) w 0 initV).mp
        (by rw [hv]; rfl)
      have h' := hsteps pre l rest hls
      unfold lineAddsNoError
      simpa [Nat.zero_add] using h'
    · intro hnl
      have hz : (processLines (nonBlankLines input) w 0 initV).errors = initV.errors := by
        apply processLines_noerr_of_steps
        intro pre l rest hls
        have h' := hnl pre l rest hls
        unfold lineAddsNoError at h'
        simpa [Nat.zero_add] using h'
      rw [hz]
      exact hbase
  · intro parser st d hinvalid
    unfold parseAndValidateInput
    rw [if_pos hinvalid]

/-- Witness for C2 (amended): the single-line input `a a`. -/
theorem validateGraphInput_valid_iff_witness :
    nonBlankLines ("a a") ≠ []
      ∧ (((validateGraphInput ("a a") false).isValid = true
            ↔ noLineError false (nonBlankLines ("a a")))
        ∧ (∀ parser st d, (validateGraphInput ("a a") false).isValid = false →
            parseAndValidateInput parser st ("a a") d false
              = ({ st with inputErrors := (validateGraphInput ("a a") false).errors,
                           isValidGraph := false, nodes := [], links := [], adjList := [] },
                 false))) :=
  ⟨by decide, validateGraphInput_valid_iff ("a a") false (by decide)⟩

/-- Counterexample to C8 as stated: in the input `a a\n\nb b` the
offending line `b b` is the third physical line of the input text,
but the produced error labels it `Line 2` — the label counts
non-blank lines only, not lines of the input text. -/
theorem line_number_cex :
    (validateGraphInput ("a a\n\nb b") false).errors
        = [("Line 1: Self-loops are not supported"), ("Line 2: Self-loops are not supported")]
      ∧ splitOnChar ('\n') ("a a\n\nb b").data = [("a a").data, [], ("b b").data] := by
  exact ⟨by decide, by decide⟩

/-- Claim C8 (amended): each non-blank line contributes at most one
error to `validateGraphInput`'s output, labeled with the 1-based
index of the line among the trimmed non-blank lines (blank lines do
not advance the counter): an invalid line contributes exactly its
labeled validation error, a duplicate line exactly the labeled
duplicate error, and an accepted line none; the final error list
extends the errors accumulated through each line. -/
theorem line_number_amended (input : String) (w : Bool) (pre : List String) (l : String)
    (rest : List String) (h : nonBlankLines input = pre ++ l :: rest) :
    (∃ tail, (validateGraphInput input w).errors
        = (processLine (processLines pre w 0 initV) pre.length l w).errors ++ tail)
    ∧ (∀ err, validateEdgeInput l w = .invalid err →
        (processLine (processLines pre w 0 initV) pre.length l w).errors
          = (processLines pre w 0 initV).errors
            ++ [("Line ") ++ toString (pre.length + 1) ++ (": ") ++ err])
    ∧ (∀ s t wt, validateEdgeInput l w = .valid s t wt →
        (edgeKey s t ∈ (processLines pre w 0 initV).edgeSet
          ∨ edgeKey t s ∈ (processLines pre w 0 initV).edgeSet) →
        (processLine (processLines pre w 0 initV) pre.length l w).errors
          = (processLines pre w 0 initV).errors
            ++ [("Line ") ++ toString (pre.length + 1) ++ (": Duplicate edge detected")])
    ∧ (∀ s t wt, validateEdgeInput l w = .valid s t wt →
        ¬ (edgeKey s t ∈ (processLines pre w 0 initV).edgeSet
          ∨ edgeKey t s ∈ (processLines pre w 0 initV).edgeSet) →
        (processLine (processLines pre w 0 initV) pre.length l w).errors
          = (processLines pre w 0 initV).errors) := by
  have hne : nonBlankLines input ≠ [] := by
    rw [h]
    exact List.append_ne_nil_of_right_ne_nil _ (by simp)
  have htrim : ¬ trimStr input = ("") := fun hh => hne (nonBlankLines_of_trim_empty input hh)
  refine ⟨?_, ?_, ?_, ?_⟩
  · have hstep : (validateGraphInput input w).errors
        = (processLines (nonBlankLines input) w 0 initV).errors := by
      unfold validateGraphInput
      rw [if_neg htrim]
    rw [hstep, h, processLines_append]
    obtain ⟨tail, htail⟩ := processLines_errors_mono rest w (0 + pre.length + 1)
      (processLine (processLines pre w 0 initV) (0 + pre.length) l w)
    refine ⟨tail, ?_⟩
    have hfin : (processLines (l :: rest) w (0 + pre.length) (processLines pre w 0 initV)).errors
        = (processLines rest w (0 + pre.length + 1)
            (processLine (processLines pre w 0 initV) (0 + pre.length) l w)).errors := rfl
    rw [hfin, htail]
    simp [Nat.zero_add]
  · intro err hv
    simp [processLine, hv]
  · intro s t wt hv hd
    simp only [processLine, hv]
    rw [if_pos hd]
  · intro s t wt hv hd
    simp only [processLine, hv]
    rw [if_neg hd]

/-- Witness for C8 (amended): the invalid line `a a` as the first
non-blank line gets the label `Line 1`. -/
theorem line_number_amended_witness :
    (processLine (processLines [] false 0 initV) 0 ("a a") false).errors
      = (processLines [] false 0 initV).errors
        ++ [("Line ") ++ toString (0 + 1) ++ (": ") ++ ("Self-loops are not supported")] :=
  (line_number_amended ("a a") false [] ("a a") [] (by decide)).2.1
    ("Self-loops are not supported") (by decide)

/-- Counterexample to C5 as stated: an algorithm function that
returns normally with a falsy result (such as `undefined`) does not
get its result stored and does not set `resultReady` — the controller
stores a result only when the returned value is truthy. -/
theorem executeAlgorithm_falsy_cex :
    (executeAlgorithm ⟨false, (""), (""), false, ("")⟩ (Except.ok none) none).resultReady = false
      ∧ (executeAlgorithm ⟨false, (""), (""), false, ("")⟩ (Except.ok none) none).result = ("") := by
  exact ⟨rfl, rfl⟩

/-- Claim C5 (amended): for a non-running controller,
`executeAlgorithm` never re-throws (it is a total state transition);
a normal return with a truthy result stores the result and sets
`resultReady`; a normal return with a falsy result leaves the result
cleared and `resultReady` false; a throw stores
`options.errorMessage` falling back to the generic algorithm-error
message; and in every case the final state has `isRunning` false and
the speed-control signal reset. -/
theorem executeAlgorithm_spec (st : ExecState) (fn : Except String (Option String))
    (em : Option String) (h : st.isRunning = false) :
    ((executeAlgorithm st fn em).isRunning = false
      ∧ (executeAlgorithm st fn em).speedrun = (""))
    ∧ (∀ r, fn = .ok (some r) → r ≠ ("") →
        executeAlgorithm st fn em
          = { st with error := (""), result := r, resultReady := true,
                      isRunning := false, speedrun := ("") })
    ∧ (fn = .ok none ∨ fn = .ok (some ("")) →
        executeAlgorithm st fn em
          = { st with error := (""), result := (""), resultReady := false,
                      isRunning := false, speedrun := ("") })
    ∧ (∀ e, fn = .error e →
        executeAlgorithm st fn em
          = { st with error := jsOrStr em ALGORITHM_ERROR, result := (""),
                      resultReady := false, isRunning := false, speedrun := ("") }) := by
  have hni : ¬ st.isRunning = true := by rw [h]; exact Bool.false_ne_true
  refine ⟨?_, ?_, ?_, ?_⟩
  · rcases fn with e | res
    · simp [executeAlgorithm, hni]
    · rcases res with _ | r
      · simp [executeAlgorithm, hni]
      · by_cases hr : r = ("")
        · simp [executeAlgorithm, hni, hr]
        · simp [executeAlgorithm, hni, hr]
  · intro r hfn hr
    subst hfn
    simp [executeAlgorithm, hni, hr]
  · intro hfn
    rcases hfn with hfn | hfn <;> subst hfn <;> simp [executeAlgorithm, hni]
  · intro e hfn
    subst hfn
    simp [executeAlgorithm, hni]

/-- Witness for C5 (amended): a throwing algorithm with a custom
error message on an idle controller. -/
theorem executeAlgorithm_spec_witness :
    executeAlgorithm ⟨false, (""), (""), false, ("")⟩ (Except.error ("boom")) (some ("Custom"))
      = ⟨false, ("Custom"), (""), false, ("")⟩ :=
  (executeAlgorithm_spec ⟨false, (""), (""), false, ("")⟩ (Except.error ("boom"))
    (some ("Custom")) rfl).2.2.2 ("boom") rfl

end GraphViz
